import Mathlib

/-!
Shallow embedding of the parking-simulator core (Go sources:
`models/vehicle.go`, `models/parking.go`, `utils/poisson.go`, and the
driver in `services` — `src/unnamed/part_002`).

Modelling conventions:
* Go `int`/`int64` values are `Int`; `time.Time` is an `Option Int`
  timestamp (Go's zero `time.Time`, tested with `IsZero`, is `none`);
  `time.Duration`-valued quantities in the Poisson generator are `ℚ`
  seconds (real arithmetic idealised by rationals).
* Go's shared `*Vehicle` objects are modelled by a heap
  `Int → Option Vehicle` indexed by vehicle id; the `vehicles`
  field of `ParkingLot` (a Go `map[int]*Vehicle` holding pointers into
  that heap) is modelled as its set of keys, a `List Int`.
* The two `semaphore.Weighted` values are modelled by their counters:
  `spacePermits` (available space permits) and the boolean
  `gateAvailable` (the weight-1 gate).  Acquiring a held `sync.Mutex`
  or blocking forever on a semaphore is modelled by returning `none`:
  operations are `Option`-valued, with `none` meaning the call blocks
  (or was handed a vehicle id that was never allocated).
* `UpdateUI` callbacks are recorded as a list of `Notif` events (the
  human-readable message is abstracted to the event kind, the vehicle
  id and the reported available-space count).
* Every `SetState` call is additionally logged in a ghost `trace`
  field, so that the per-vehicle state history is observable.
* `Exit`'s `go p.TryEnter(nextVehicle)` retry is modelled as running
  immediately after `Exit` finishes (the typical schedule: the spawned
  goroutine acquires `p.mu` and the gate only once `Exit` has released
  them).
-/

/-- Vehicle lifecycle states, from `models/vehicle.go`. -/
inductive VehicleState where
  | Waiting
  | Entering
  | Parked
  | Exiting
deriving DecidableEq

/-- A vehicle: id, state and timestamps, from `models/vehicle.go`.
The Go `time.Time` fields are `Option Int` (Go's zero time is `none`). -/
structure Vehicle where
  id : Int
  state : VehicleState
  entryTime : Option Int
  exitTime : Option Int
deriving DecidableEq

/-- `Vehicle.SetState` from `models/vehicle.go`: set the state; set the
entry time when entering with a zero entry time, set the exit time when
exiting. -/
def Vehicle.SetState (v : Vehicle) (s : VehicleState) (now : Int) : Vehicle :=
  let v' := { v with state := s }
  if s = VehicleState.Entering ∧ v.entryTime = none then
    { v' with entryTime := some now }
  else if s = VehicleState.Exiting then
    { v' with exitTime := some now }
  else v'

/-- `NewVehicle` from `models/vehicle.go`: state `Waiting`, entry time
set to the creation instant, exit time unset. -/
def NewVehicle (id : Int) (now : Int) : Vehicle :=
  { id := id, state := VehicleState.Waiting, entryTime := some now, exitTime := none }

/-- Kind of an `UpdateUI` notification (admission or departure message). -/
inductive NotifKind where
  | entered
  | exited
deriving DecidableEq

/-- One `UpdateUI` invocation: which message was formatted, for which
vehicle, and the available-space count passed along. -/
structure Notif where
  kind : NotifKind
  vid : Int
  spaces : Int
deriving DecidableEq

/-- The pool state from `models/parking.go`.  `vehicles` is the key set
of the Go `map[int]*Vehicle` (the pointed-to objects live in the world's
heap); `spacePermits` is the available weight of `spaceSem`;
`gateAvailable` is the weight-1 `gateSem`. -/
structure ParkingLot where
  capacity : Int
  spacePermits : Int
  gateAvailable : Bool
  vehicles : List Int
  waitingQueue : List Int
  occupiedSpaces : Int
deriving DecidableEq

/-- `NewParkingLot` from `models/parking.go`. -/
def NewParkingLot (capacity : Int) : ParkingLot :=
  { capacity := capacity, spacePermits := capacity, gateAvailable := true,
    vehicles := [], waitingQueue := [], occupiedSpaces := 0 }

/-- `GetAvailableSpaces` from `models/parking.go`. -/
def ParkingLot.GetAvailableSpaces (p : ParkingLot) : Int :=
  p.capacity - p.occupiedSpaces

/-- Key insertion for the Go map assignment `p.vehicles[id] = vehicle`:
a repeated key leaves the key set unchanged. -/
def addKey (l : List Int) (id : Int) : List Int :=
  if id ∈ l then l else l ++ [id]

/-- Key removal for the Go `delete(p.vehicles, id)`. -/
def removeKey (l : List Int) (id : Int) : List Int :=
  l.filter (fun k => k ≠ id)

/-- A world: the pool plus the heap of shared `*Vehicle` objects and the
ghost log of all `SetState` transitions. -/
structure World where
  lot : ParkingLot
  heap : Int → Option Vehicle
  trace : List (Int × VehicleState)

/-- Heap update (mutation of the shared `*Vehicle` object). -/
def hset (h : Int → Option Vehicle) (id : Int) (v : Vehicle) : Int → Option Vehicle :=
  fun k => if k = id then some v else h k

/-- `ParkingLot.TryEnter` from `models/parking.go`, acting on a world and
a vehicle id (the Go caller passes the `*Vehicle`; the id resolves it in
the heap; `none` means the pointer was never allocated, or the call
blocked on the gate).  Faithful branch order: full-lot check, space
permit `TryAcquire`, gate acquire, then the bookkeeping + notification. -/
def TryEnter (w : World) (id : Int) (now : Int) : Option (World × Bool × List Notif) :=
  match w.heap id with
  | none => none
  | some v =>
    let p := w.lot
    if p.occupiedSpaces ≥ p.capacity then
      some ({ w with lot := { p with waitingQueue := p.waitingQueue ++ [id] } }, false, [])
    else if p.spacePermits < 1 then
      some ({ w with lot := { p with waitingQueue := p.waitingQueue ++ [id] } }, false, [])
    else
      let p1 := { p with spacePermits := p.spacePermits - 1 }
      if p1.gateAvailable then
        let v1 := v.SetState VehicleState.Entering now
        let p2 := { p1 with gateAvailable := false,
                            vehicles := addKey p1.vehicles id,
                            occupiedSpaces := p1.occupiedSpaces + 1 }
        let spaces := p2.GetAvailableSpaces
        let p3 := { p2 with gateAvailable := true }
        let v2 := v1.SetState VehicleState.Parked now
        some ({ lot := p3,
                heap := hset w.heap id v2,
                trace := w.trace ++ [(id, VehicleState.Entering), (id, VehicleState.Parked)] },
              true, [⟨NotifKind.entered, id, spaces⟩])
      else none

/-- `ParkingLot.Exit` from `models/parking.go`, without the spawned
queue retry: the membership check, the `Exiting` transition, map
removal, occupancy decrement, the departure notification, the space
permit release, and the pop of the waiting-queue head (returned so the
spawned `TryEnter` can be run afterwards). -/
def ExitCore (w : World) (id : Int) (now : Int) :
    Option (World × List Notif × Option Int) :=
  match w.heap id with
  | none => none
  | some v =>
    let p := w.lot
    if id ∈ p.vehicles then
      if p.gateAvailable then
        let v1 := v.SetState VehicleState.Exiting now
        let p1 := { p with gateAvailable := false,
                           vehicles := removeKey p.vehicles id,
                           occupiedSpaces := p.occupiedSpaces - 1 }
        let spaces := p1.GetAvailableSpaces
        let p2 := { p1 with spacePermits := p1.spacePermits + 1 }
        let w1 : World := { lot := p2, heap := hset w.heap id v1,
                            trace := w.trace ++ [(id, VehicleState.Exiting)] }
        match p.waitingQueue with
        | [] =>
          some ({ w1 with lot := { w1.lot with gateAvailable := true } },
                [⟨NotifKind.exited, id, spaces⟩], none)
        | h :: t =>
          some ({ w1 with lot := { w1.lot with waitingQueue := t, gateAvailable := true } },
                [⟨NotifKind.exited, id, spaces⟩], some h)
      else none
    else some (w, [], none)

/-- `Exit` including the `go p.TryEnter(nextVehicle)` retry for the
popped waiting-queue head, run after `Exit` releases the gate. -/
def ExitStep (w : World) (id : Int) (now : Int) : Option (World × List Notif) :=
  match ExitCore w id now with
  | none => none
  | some (w1, ns, none) => some (w1, ns)
  | some (w1, ns, some h) =>
    match TryEnter w1 h now with
    | none => none
    | some (w2, _, ns2) => some (w2, ns ++ ns2)

/-- Creation of a vehicle (`models.NewVehicle` called by the driver):
allocates the shared object in the heap and logs the initial `Waiting`
state. -/
def createV (w : World) (id : Int) (now : Int) : World :=
  { w with heap := hset w.heap id (NewVehicle id now),
           trace := w.trace ++ [(id, VehicleState.Waiting)] }

/-- One pool-facing operation: vehicle creation, a `TryEnter` call, or
an `Exit` call (with its queue-drain retry). -/
inductive Op where
  | create (id : Int) (now : Int)
  | enter (id : Int) (now : Int)
  | leave (id : Int) (now : Int)
deriving DecidableEq

/-- Timestamp of an operation. -/
def Op.time : Op → Int
  | Op.create _ t => t
  | Op.enter _ t => t
  | Op.leave _ t => t

/-- Execute one operation. -/
def step (w : World) : Op → Option (World × List Notif)
  | Op.create id now => some (createV w id now, [])
  | Op.enter id now =>
    match TryEnter w id now with
    | none => none
    | some (w', _, ns) => some (w', ns)
  | Op.leave id now => ExitStep w id now

/-- Execute a sequence of operations, accumulating the notifications. -/
def runOps (w : World) : List Op → Option (World × List Notif)
  | [] => some (w, [])
  | op :: ops =>
    match step w op with
    | none => none
    | some (w1, ns1) =>
      match runOps w1 ops with
      | none => none
      | some (w2, ns2) => some (w2, ns1 ++ ns2)

/-- The initial world for a fresh `NewParkingLot capacity`. -/
def initWorld (capacity : Int) : World :=
  { lot := NewParkingLot capacity, heap := fun _ => none, trace := [] }

/-- Observed `SetState` history of one vehicle. -/
def traceOf (w : World) (id : Int) : List VehicleState :=
  (w.trace.filter (fun e => e.1 = id)).map (fun e => e.2)

/-- The full lifecycle chain of the vehicle state machine. -/
def stateChain : List VehicleState :=
  [VehicleState.Waiting, VehicleState.Entering, VehicleState.Parked, VehicleState.Exiting]

/-- A state history that is a (possibly truncated) prefix of the chain
`Waiting, Entering, Parked, Exiting`. -/
def IsChainTrace (l : List VehicleState) : Prop :=
  l.isPrefixOf stateChain = true

/-!
The Poisson arrival generator from `utils/poisson.go`.

Real (`float64`) arithmetic is idealised over `ℚ`.  The exponential
variate `x = -ln(1-u)/lambda` computed from the uniform draw `u` is
transcendental, so the random source is modelled one step later: `raw`
is the stream of pre-clamp variate values, and `idx` the stream
position.  The clamping law under scrutiny holds for every raw value.
`locked` is the generator's `sync.Mutex` `mu`; calling an operation
while it is held blocks forever, modelled as `none`.
-/

/-- State of `PoissonGenerator` (`utils/poisson.go`). -/
structure PoissonGenerator where
  lambda : ℚ
  minTime : ℚ
  maxTime : ℚ
  raw : Nat → ℚ
  idx : Nat
  locked : Bool

/-- The clamp `math.Max(pg.minTime, math.Min(pg.maxTime, x))`. -/
def clampInterval (minT maxT x : ℚ) : ℚ :=
  max minT (min maxT x)

/-- `PoissonGenerator.NextInterval`: lock `mu` (blocking forever —
`none` — if already held), draw the next exponential variate, clamp it
to `[minTime, maxTime]`, unlock, and return the interval in seconds. -/
def NextInterval (pg : PoissonGenerator) : Option (ℚ × PoissonGenerator) :=
  if pg.locked then none
  else
    let x0 := pg.raw pg.idx
    let x := clampInterval pg.minTime pg.maxTime x0
    some (x, { pg with idx := pg.idx + 1 })

/-- The `for currentTime < duration` loop body of
`GenerateEventTimes`, with an explicit fuel bound on the number of
iterations.  Each iteration calls `pg.NextInterval()` on the generator
as it stands — with `mu` still held by `GenerateEventTimes` itself. -/
def genLoop (pg : PoissonGenerator) (duration : ℚ) :
    ℚ → List ℚ → Nat → Option (List ℚ × PoissonGenerator)
  | _, _, 0 => none
  | currentTime, acc, Nat.succ fuel =>
    if currentTime < duration then
      match NextInterval pg with
      | none => none
      | some (i, pg') =>
        let c' := currentTime + i
        genLoop pg' duration c' (if c' < duration then acc ++ [c'] else acc) fuel
    else some (acc, pg)

/-- `PoissonGenerator.GenerateEventTimes`: acquire `mu` (so the whole
loop runs with `locked := true`), accumulate intervals below
`duration`, then release `mu`.  `none` models blocking forever (at any
fuel bound). -/
def GenerateEventTimes (pg : PoissonGenerator) (duration : ℚ) (fuel : Nat) :
    Option (List ℚ × PoissonGenerator) :=
  if pg.locked then none
  else
    match genLoop { pg with locked := true } duration 0 [] fuel with
    | none => none
    | some (ts, pg') => some (ts, { pg' with locked := false })

/-!
Driver fragments from `services` (`src/unnamed/part_002`) needed by the
conservation claim: the bounded driver queue `s.queue` and the
admission phase of `processVehicle`.  (Statistics updates and the
queue-length callback do not touch the pool or the queues' contents and
are omitted.)
-/

/-- `Simulation.addToQueue`: reject when the driver queue is at
`MAX_QUEUE_SIZE`, otherwise append.  Returns the new queue and the
success flag. -/
def addToQueue (dq : List Int) (maxQ : Nat) (id : Int) : List Int × Bool :=
  if dq.length ≥ maxQ then (dq, false)
  else (dq ++ [id], true)

/-- The admission phase of `Simulation.processVehicle`: call
`s.parking.TryEnter(vehicle)`; when rejected, try to append the vehicle
to the driver's bounded queue (silently dropped when full).  Returns
the world, the driver queue and the `entered` flag. -/
def processVehicleAdmit (w : World) (dq : List Int) (maxQ : Nat) (id : Int) (now : Int) :
    Option (World × List Int × Bool) :=
  match TryEnter w id now with
  | none => none
  | some (w', entered, _) =>
    if entered then some (w', dq, true)
    else some (w', (addToQueue dq maxQ id).1, false)

example :
    (TryEnter (createV (initWorld 1) 7 0) 7 1).map
      (fun r => (r.1.lot.occupiedSpaces, r.2.1, r.2.2)) = some (1, true, [⟨NotifKind.entered, 7, 0⟩]) := by
  decide

example :
    ((createV (initWorld 1) 7 0).heap 7).map Vehicle.state = some VehicleState.Waiting := by
  decide

/-! Basic lemmas about the key-set and heap helpers. -/

theorem addKey_nodup {l : List Int} {id : Int} (h : l.Nodup) : (addKey l id).Nodup := by
  unfold addKey
  split
  · exact h
  · next hm =>
      rw [List.nodup_append]
      refine ⟨h, List.nodup_singleton id, ?_⟩
      intro b hb hbid
      rw [List.mem_singleton] at hbid
      exact hm (hbid ▸ hb)

theorem addKey_length_le (l : List Int) (id : Int) :
    (addKey l id).length ≤ l.length + 1 := by
  unfold addKey
  split
  · omega
  · simp

theorem mem_addKey {l : List Int} {id k : Int} :
    k ∈ addKey l id ↔ k ∈ l ∨ k = id := by
  unfold addKey
  split
  · next hm =>
      constructor
      · exact fun h => Or.inl h
      · rintro (h | rfl)
        · exact h
        · exact hm
  · simp

theorem removeKey_nodup {l : List Int} {id : Int} (h : l.Nodup) : (removeKey l id).Nodup :=
  h.filter _

theorem mem_removeKey {l : List Int} {id k : Int} :
    k ∈ removeKey l id ↔ k ∈ l ∧ k ≠ id := by
  simp [removeKey]

theorem removeKey_length {l : List Int} {id : Int} (hm : id ∈ l) (hn : l.Nodup) :
    (removeKey l id).length + 1 = l.length := by
  induction l with
  | nil => cases hm
  | cons a t ih =>
    rcases List.nodup_cons.mp hn with ⟨ha, ht⟩
    by_cases hai : a = id
    · subst hai
      have hf : t.filter (fun k => decide (k ≠ a)) = t := by
        apply List.filter_eq_self.mpr
        intro b hb
        simp only [decide_eq_true_eq]
        rintro rfl
        exact ha hb
      have hr : removeKey (a :: t) a = t := by
        simp only [removeKey, List.filter_cons]
        simpa using hf
      rw [hr]
      simp
    · have hmt : id ∈ t := by
        rcases List.mem_cons.mp hm with h' | h'
        · exact absurd h'.symm hai
        · exact h'
      have hr : removeKey (a :: t) id = a :: removeKey t id := by
        simp [removeKey, hai]
      rw [hr]
      simp only [List.length_cons]
      rw [← ih hmt ht]

theorem removeKey_eq_self {l : List Int} {id : Int} (hm : id ∉ l) :
    removeKey l id = l := by
  apply List.filter_eq_self.mpr
  intro b hb
  simp only [decide_eq_true_eq]
  rintro rfl
  exact hm hb

theorem hset_eq (h : Int → Option Vehicle) (id : Int) (v : Vehicle) :
    hset h id v id = some v := by
  simp [hset]

theorem hset_ne (h : Int → Option Vehicle) {id k : Int} (v : Vehicle) (hk : k ≠ id) :
    hset h id v k = h k := by
  simp [hset, hk]

/-! Case-analysis lemmas describing the possible outcomes of the pool
operations; these are the workhorses for the invariant proofs. -/

/-- Every successful `TryEnter` call is either a reject-to-queue (full
lot, or no space permit) that only appends the id to the waiting queue,
or a full admission. -/
theorem tryEnter_cases {w : World} {id now : Int} {r : World × Bool × List Notif}
    (h : TryEnter w id now = some r) :
    ∃ v, w.heap id = some v ∧
      (((w.lot.occupiedSpaces ≥ w.lot.capacity ∨ w.lot.spacePermits < 1) ∧
         r = ({ w with lot := { w.lot with waitingQueue := w.lot.waitingQueue ++ [id] } },
              false, [])) ∨
       (w.lot.occupiedSpaces < w.lot.capacity ∧ 1 ≤ w.lot.spacePermits ∧
         w.lot.gateAvailable = true ∧
         r = ({ lot := { w.lot with gateAvailable := true,
                                    spacePermits := w.lot.spacePermits - 1,
                                    vehicles := addKey w.lot.vehicles id,
                                    occupiedSpaces := w.lot.occupiedSpaces + 1 },
                heap := hset w.heap id ((v.SetState VehicleState.Entering now).SetState
                          VehicleState.Parked now),
                trace := w.trace ++ [(id, VehicleState.Entering), (id, VehicleState.Parked)] },
              true,
              [⟨NotifKind.entered, id, w.lot.capacity - (w.lot.occupiedSpaces + 1)⟩]))) := by
  cases hh : w.heap id with
  | none => rw [TryEnter, hh] at h; cases h
  | some v =>
    rw [TryEnter, hh] at h
    simp only at h
    split_ifs at h with h1 h2 h3
    · injection h with h
      subst h
      exact ⟨v, rfl, Or.inl ⟨Or.inl h1, rfl⟩⟩
    · injection h with h
      subst h
      exact ⟨v, rfl, Or.inl ⟨Or.inr h2, rfl⟩⟩
    · injection h with h
      subst h
      exact ⟨v, rfl, Or.inr ⟨by omega, by omega, h3, rfl⟩⟩

/-- Bookkeeping invariant of the pool between operations: the gate is
free, the space-permit count mirrors `capacity - occupiedSpaces`, the
map keys are distinct and no fewer than the occupancy count says, and
occupancy never exceeds capacity. -/
def PoolInv (w : World) : Prop :=
  w.lot.gateAvailable = true ∧
  w.lot.spacePermits = w.lot.capacity - w.lot.occupiedSpaces ∧
  w.lot.vehicles.Nodup ∧
  (w.lot.vehicles.length : Int) ≤ w.lot.occupiedSpaces ∧
  w.lot.occupiedSpaces ≤ w.lot.capacity

/-- Every successful `ExitCore` call is either the defensive no-op (id
not in the map) or a full departure, possibly popping the queue head. -/
theorem exitCore_cases {w : World} {id now : Int} {r : World × List Notif × Option Int}
    (h : ExitCore w id now = some r) :
    ∃ v, w.heap id = some v ∧
      ((id ∉ w.lot.vehicles ∧ r = (w, [], none)) ∨
       (id ∈ w.lot.vehicles ∧ w.lot.gateAvailable = true ∧
        ((w.lot.waitingQueue = [] ∧
           r = ({ lot := { w.lot with gateAvailable := true,
                                      vehicles := removeKey w.lot.vehicles id,
                                      occupiedSpaces := w.lot.occupiedSpaces - 1,
                                      spacePermits := w.lot.spacePermits + 1,
                                      waitingQueue := [] },
                  heap := hset w.heap id (v.SetState VehicleState.Exiting now),
                  trace := w.trace ++ [(id, VehicleState.Exiting)] },
                [⟨NotifKind.exited, id, w.lot.capacity - (w.lot.occupiedSpaces - 1)⟩], none)) ∨
         (∃ q qs, w.lot.waitingQueue = q :: qs ∧
           r = ({ lot := { w.lot with gateAvailable := true,
                                      vehicles := removeKey w.lot.vehicles id,
                                      occupiedSpaces := w.lot.occupiedSpaces - 1,
                                      spacePermits := w.lot.spacePermits + 1,
                                      waitingQueue := qs },
                  heap := hset w.heap id (v.SetState VehicleState.Exiting now),
                  trace := w.trace ++ [(id, VehicleState.Exiting)] },
                [⟨NotifKind.exited, id, w.lot.capacity - (w.lot.occupiedSpaces - 1)⟩],
                some q))))) := by
  cases hh : w.heap id with
  | none => rw [ExitCore, hh] at h; cases h
  | some v =>
    rw [ExitCore, hh] at h
    simp only at h
    split_ifs at h with h1 h2
    · cases hq : w.lot.waitingQueue with
      | nil =>
        rw [hq] at h
        simp only at h
        injection h with h
        subst h
        exact ⟨v, rfl, Or.inr ⟨h1, h2, Or.inl ⟨rfl, rfl⟩⟩⟩
      | cons q qs =>
        rw [hq] at h
        simp only at h
        injection h with h
        subst h
        exact ⟨v, rfl, Or.inr ⟨h1, h2, Or.inr ⟨q, qs, rfl, rfl⟩⟩⟩
    · injection h with h
      subst h
      exact ⟨v, rfl, Or.inl ⟨h1, rfl⟩⟩

theorem tryEnter_poolInv {w : World} {id now : Int} {r : World × Bool × List Notif}
    (hi : PoolInv w) (h : TryEnter w id now = some r) :
    PoolInv r.1 ∧ r.1.lot.capacity = w.lot.capacity := by
  obtain ⟨hg, hs, hn, hl, ho⟩ := hi
  obtain ⟨v, hv, hcase | hcase⟩ := tryEnter_cases h
  · obtain ⟨-, rfl⟩ := hcase
    exact ⟨⟨hg, hs, hn, hl, ho⟩, rfl⟩
  · obtain ⟨h1, h2, h3, rfl⟩ := hcase
    refine ⟨⟨rfl, ?_, ?_, ?_, ?_⟩, rfl⟩
    · dsimp only
      omega
    · exact addKey_nodup hn
    · dsimp only
      have := addKey_length_le w.lot.vehicles id
      omega
    · dsimp only
      omega

theorem exitCore_poolInv {w : World} {id now : Int} {r : World × List Notif × Option Int}
    (hi : PoolInv w) (h : ExitCore w id now = some r) :
    PoolInv r.1 ∧ r.1.lot.capacity = w.lot.capacity := by
  obtain ⟨hg, hs, hn, hl, ho⟩ := hi
  obtain ⟨v, hv, hcase | hcase⟩ := exitCore_cases h
  · obtain ⟨-, rfl⟩ := hcase
    exact ⟨⟨hg, hs, hn, hl, ho⟩, rfl⟩
  · obtain ⟨hm, -, hbr | hbr⟩ := hcase
    · obtain ⟨-, rfl⟩ := hbr
      refine ⟨⟨rfl, ?_, ?_, ?_, ?_⟩, rfl⟩
      · dsimp only
        omega
      · exact removeKey_nodup hn
      · dsimp only
        have := removeKey_length hm hn
        have h1 : (1 : Int) ≤ w.lot.vehicles.length := by
          have := List.length_pos.mpr (List.ne_nil_of_mem hm)
          omega
        omega
      · dsimp only
        omega
    · obtain ⟨q, qs, -, rfl⟩ := hbr
      refine ⟨⟨rfl, ?_, ?_, ?_, ?_⟩, rfl⟩
      · dsimp only
        omega
      · exact removeKey_nodup hn
      · dsimp only
        have := removeKey_length hm hn
        omega
      · dsimp only
        omega

theorem exitStep_poolInv {w : World} {id now : Int} {r : World × List Notif}
    (hi : PoolInv w) (h : ExitStep w id now = some r) :
    PoolInv r.1 ∧ r.1.lot.capacity = w.lot.capacity := by
  unfold ExitStep at h
  cases hc : ExitCore w id now with
  | none => rw [hc] at h; cases h
  | some rc =>
    rw [hc] at h
    obtain ⟨w1, ns, popped⟩ := rc
    have hw1 := exitCore_poolInv hi hc
    cases popped with
    | none =>
      simp only at h
      injection h with h
      subst h
      exact hw1
    | some q =>
      simp only at h
      cases ht : TryEnter w1 q now with
      | none => rw [ht] at h; cases h
      | some rt =>
        rw [ht] at h
        injection h with h
        subst h
        have hrt := tryEnter_poolInv hw1.1 ht
        exact ⟨hrt.1, hrt.2.trans hw1.2⟩

theorem step_poolInv {w : World} {op : Op} {r : World × List Notif}
    (hi : PoolInv w) (h : step w op = some r) :
    PoolInv r.1 ∧ r.1.lot.capacity = w.lot.capacity := by
  cases op with
  | create id now =>
    simp only [step] at h
    injection h with h
    subst h
    exact ⟨hi, rfl⟩
  | enter id now =>
    simp only [step] at h
    cases ht : TryEnter w id now with
    | none => rw [ht] at h; cases h
    | some rt =>
      rw [ht] at h
      injection h with h
      subst h
      exact tryEnter_poolInv hi ht
  | leave id now =>
    simp only [step] at h
    exact exitStep_poolInv hi h

theorem runOps_poolInv {ops : List Op} {w w' : World} {ns : List Notif}
    (hi : PoolInv w) (h : runOps w ops = some (w', ns)) :
    PoolInv w' ∧ w'.lot.capacity = w.lot.capacity := by
  induction ops generalizing w ns with
  | nil =>
    simp only [runOps] at h
    injection h with h
    rw [show w' = w from congrArg Prod.fst h.symm]
    exact ⟨hi, rfl⟩
  | cons op ops ih =>
    simp only [runOps] at h
    cases hs : step w op with
    | none => rw [hs] at h; cases h
    | some r1 =>
      rw [hs] at h
      obtain ⟨w1, ns1⟩ := r1
      simp only at h
      cases hr : runOps w1 ops with
      | none => rw [hr] at h; cases h
      | some r2 =>
        rw [hr] at h
        obtain ⟨w2, ns2⟩ := r2
        simp only at h
        injection h with h
        have hw : w' = w2 := congrArg Prod.fst h.symm
        subst hw
        have h1 := step_poolInv hi hs
        dsimp only at h1
        have h2 := ih h1.1 hr
        exact ⟨h2.1, h2.2.trans h1.2⟩

theorem initWorld_poolInv {C : Int} (hC : 0 ≤ C) : PoolInv (initWorld C) := by
  refine ⟨rfl, ?_, List.nodup_nil, ?_, ?_⟩ <;> simp [initWorld, NewParkingLot, hC]

/-- C1: for every `ParkingLot` created with capacity `C ≥ 0` and every
sequence of creations, `TryEnter` and `Exit` operations (over any
vehicle ids, repeats included), the occupancy count satisfies
`0 ≤ occupancy ≤ C` at the end of the run — and hence after every
operation, since every prefix of a successful run is itself a
successful run. -/
theorem c1_capacity_invariant (C : Int) (hC : 0 ≤ C) (ops : List Op) (w : World)
    (ns : List Notif) (h : runOps (initWorld C) ops = some (w, ns)) :
    0 ≤ w.lot.occupiedSpaces ∧ w.lot.occupiedSpaces ≤ C := by
  obtain ⟨⟨-, -, -, hl, ho⟩, hcap⟩ := runOps_poolInv (initWorld_poolInv hC) h
  have hcap' : w.lot.capacity = C := hcap
  constructor
  · have : (0 : Int) ≤ w.lot.vehicles.length := Int.ofNat_nonneg _
    omega
  · omega

/-- Concrete operation list exercising `c1_capacity_invariant`. -/
def c1ops : List Op :=
  [Op.create 1 0, Op.create 2 0, Op.create 3 0,
   Op.enter 1 1, Op.enter 2 2, Op.enter 3 3, Op.leave 1 4, Op.leave 2 5]

/-- Result of running `c1ops` on a capacity-2 lot. -/
def c1res : World × List Notif := (runOps (initWorld 2) c1ops).getD (initWorld 2, [])

/-- Witness for `c1_capacity_invariant` at capacity 2 and `c1ops`. -/
theorem c1_capacity_invariant_witness :
    0 ≤ c1res.1.lot.occupiedSpaces ∧ c1res.1.lot.occupiedSpaces ≤ 2 :=
  c1_capacity_invariant 2 (by norm_num) c1ops c1res.1 c1res.2 rfl

theorem addKey_mem_eq {l : List Int} {id : Int} (h : id ∈ l) : addKey l id = l := by
  simp [addKey, h]

/-- Forward evaluation: a `TryEnter` on a full lot appends the id to the
waiting queue and reports `false` without notifying. -/
theorem tryEnter_full {w : World} {id now : Int} {v : Vehicle}
    (hv : w.heap id = some v) (hfull : w.lot.capacity ≤ w.lot.occupiedSpaces) :
    TryEnter w id now =
      some ({ w with lot := { w.lot with waitingQueue := w.lot.waitingQueue ++ [id] } },
            false, []) := by
  rw [TryEnter, hv]
  dsimp only
  rw [if_pos hfull]

/-- Forward evaluation: a `TryEnter` with room, at least one space
permit and a free gate admits the vehicle. -/
theorem tryEnter_success {w : World} {id now : Int} {v : Vehicle}
    (hv : w.heap id = some v) (hlt : w.lot.occupiedSpaces < w.lot.capacity)
    (hperm : 1 ≤ w.lot.spacePermits) (hgate : w.lot.gateAvailable = true) :
    TryEnter w id now =
      some ({ lot := { w.lot with gateAvailable := true,
                                  spacePermits := w.lot.spacePermits - 1,
                                  vehicles := addKey w.lot.vehicles id,
                                  occupiedSpaces := w.lot.occupiedSpaces + 1 },
              heap := hset w.heap id ((v.SetState VehicleState.Entering now).SetState
                        VehicleState.Parked now),
              trace := w.trace ++ [(id, VehicleState.Entering), (id, VehicleState.Parked)] },
            true,
            [⟨NotifKind.entered, id, w.lot.capacity - (w.lot.occupiedSpaces + 1)⟩]) := by
  rw [TryEnter, hv]
  dsimp only
  rw [if_neg (by omega), if_neg (by omega)]
  simp only [hgate, if_true]
  rfl

/-- Forward evaluation: `ExitCore` on an id outside the map is the
defensive no-op. -/
theorem exitCore_not_mem {w : World} {id now : Int} {v : Vehicle}
    (hv : w.heap id = some v) (hmem : id ∉ w.lot.vehicles) :
    ExitCore w id now = some (w, [], none) := by
  rw [ExitCore, hv]
  dsimp only
  rw [if_neg hmem]

/-- Forward evaluation: `ExitStep` on an id outside the map changes
nothing and emits no notification. -/
theorem exitStep_not_mem {w : World} {id now : Int} {v : Vehicle}
    (hv : w.heap id = some v) (hmem : id ∉ w.lot.vehicles) :
    ExitStep w id now = some (w, []) := by
  unfold ExitStep
  rw [exitCore_not_mem hv hmem]

/-- Forward evaluation: `ExitCore` on an admitted id with a free gate
and an empty waiting queue performs the departure bookkeeping. -/
theorem exitCore_mem_nil {w : World} {id now : Int} {v : Vehicle}
    (hv : w.heap id = some v) (hmem : id ∈ w.lot.vehicles)
    (hgate : w.lot.gateAvailable = true) (hq : w.lot.waitingQueue = []) :
    ExitCore w id now =
      some ({ lot := { w.lot with gateAvailable := true,
                                  vehicles := removeKey w.lot.vehicles id,
                                  occupiedSpaces := w.lot.occupiedSpaces - 1,
                                  spacePermits := w.lot.spacePermits + 1,
                                  waitingQueue := [] },
              heap := hset w.heap id (v.SetState VehicleState.Exiting now),
              trace := w.trace ++ [(id, VehicleState.Exiting)] },
            [⟨NotifKind.exited, id, w.lot.capacity - (w.lot.occupiedSpaces - 1)⟩],
            none) := by
  rw [ExitCore, hv]
  dsimp only
  rw [if_pos hmem]
  simp only [hgate, if_true, hq]
  rfl

/-- C3: `TryEnter` postcondition.  (a) When occupancy already equals
capacity, the vehicle is appended at the tail of the pool's FIFO
waiting queue, `TryEnter` returns `false`, and occupancy, the map, the
heap and the permits are unchanged — no notification fires.  (b) When a
space is available (occupancy below capacity, a permit free, the gate
free — no cancellation in a sequential run), the vehicle is transformed
by `SetState Entering` then `SetState Parked` (logging the transitions
`Waiting → Entering → Parked` for a waiting vehicle), is recorded in
the map under its id, occupancy increases by exactly one, exactly one
notification fires carrying the new available-space count, and
`TryEnter` returns `true`. -/
theorem c3_tryEnter_postcondition :
    (∀ (w : World) (id now : Int) (v : Vehicle),
       w.heap id = some v → w.lot.occupiedSpaces = w.lot.capacity →
       TryEnter w id now =
         some ({ w with lot := { w.lot with waitingQueue := w.lot.waitingQueue ++ [id] } },
               false, [])) ∧
    (∀ (w : World) (id now : Int) (v : Vehicle),
       w.heap id = some v → v.state = VehicleState.Waiting →
       w.lot.occupiedSpaces < w.lot.capacity →
       w.lot.spacePermits = w.lot.capacity - w.lot.occupiedSpaces →
       w.lot.gateAvailable = true →
       ∃ w' : World,
         TryEnter w id now =
           some (w', true,
                 [⟨NotifKind.entered, id, w.lot.capacity - (w.lot.occupiedSpaces + 1)⟩]) ∧
         w'.lot.occupiedSpaces = w.lot.occupiedSpaces + 1 ∧
         w'.heap id =
           some ((v.SetState VehicleState.Entering now).SetState VehicleState.Parked now) ∧
         ((v.SetState VehicleState.Entering now).SetState VehicleState.Parked now).state =
           VehicleState.Parked ∧
         id ∈ w'.lot.vehicles ∧
         w'.lot.waitingQueue = w.lot.waitingQueue ∧
         w'.trace = w.trace ++ [(id, VehicleState.Entering), (id, VehicleState.Parked)]) := by
  constructor
  · intro w id now v hv hfull
    exact tryEnter_full hv (le_of_eq hfull.symm)
  · intro w id now v hv hst hlt hperm hgate
    refine ⟨_, tryEnter_success hv hlt (by omega) hgate, rfl, hset_eq _ _ _, ?_, ?_, rfl, rfl⟩
    · simp [Vehicle.SetState]
    · exact mem_addKey.mpr (Or.inr rfl)

/-- World with capacity 0 and one created vehicle (full lot). -/
def c3wFull : World := createV (initWorld 0) 1 5

/-- World with capacity 1 and one created vehicle (space available). -/
def c3wFree : World := createV (initWorld 1) 2 0

/-- Witness for `c3_tryEnter_postcondition` on concrete worlds. -/
theorem c3_tryEnter_postcondition_witness :
    (TryEnter c3wFull 1 6 =
       some ({ c3wFull with
                 lot := { c3wFull.lot with
                            waitingQueue := c3wFull.lot.waitingQueue ++ [1] } },
             false, [])) ∧
    (∃ w' : World,
       TryEnter c3wFree 2 1 =
         some (w', true,
               [⟨NotifKind.entered, 2, c3wFree.lot.capacity - (c3wFree.lot.occupiedSpaces + 1)⟩]) ∧
       w'.lot.occupiedSpaces = c3wFree.lot.occupiedSpaces + 1 ∧
       w'.heap 2 =
         some (((NewVehicle 2 0).SetState VehicleState.Entering 1).SetState VehicleState.Parked 1) ∧
       (((NewVehicle 2 0).SetState VehicleState.Entering 1).SetState VehicleState.Parked 1).state =
         VehicleState.Parked ∧
       2 ∈ w'.lot.vehicles ∧
       w'.lot.waitingQueue = c3wFree.lot.waitingQueue ∧
       w'.trace = c3wFree.trace ++ [(2, VehicleState.Entering), (2, VehicleState.Parked)]) :=
  ⟨c3_tryEnter_postcondition.1 c3wFull 1 6 (NewVehicle 1 5) rfl rfl,
   c3_tryEnter_postcondition.2 c3wFree 2 1 (NewVehicle 2 0) rfl rfl (by decide) (by decide) rfl⟩

/-- C9: `TryEnter` performs no already-present check.  In any pool state
with occupancy strictly below capacity (permits mirroring occupancy, the
gate free), calling `TryEnter` on a vehicle whose id is already a key of
the map returns `true`, increments occupancy again, overwrites the heap
entry, leaves the key set unchanged — so afterwards occupancy strictly
exceeds the number of map entries. -/
theorem c9_no_readmission_check (w : World) (id now : Int) (v : Vehicle)
    (hv : w.heap id = some v) (hmem : id ∈ w.lot.vehicles)
    (hlt : w.lot.occupiedSpaces < w.lot.capacity)
    (hperm : w.lot.spacePermits = w.lot.capacity - w.lot.occupiedSpaces)
    (hgate : w.lot.gateAvailable = true)
    (hcount : (w.lot.vehicles.length : Int) ≤ w.lot.occupiedSpaces) :
    ∃ w' : World,
      TryEnter w id now =
        some (w', true,
              [⟨NotifKind.entered, id, w.lot.capacity - (w.lot.occupiedSpaces + 1)⟩]) ∧
      w'.lot.occupiedSpaces = w.lot.occupiedSpaces + 1 ∧
      w'.lot.vehicles = w.lot.vehicles ∧
      w'.heap id =
        some ((v.SetState VehicleState.Entering now).SetState VehicleState.Parked now) ∧
      (w'.lot.vehicles.length : Int) < w'.lot.occupiedSpaces := by
  refine ⟨_, tryEnter_success hv hlt (by omega) hgate, rfl, ?_, hset_eq _ _ _, ?_⟩
  · exact addKey_mem_eq hmem
  · dsimp only
    rw [addKey_mem_eq hmem]
    omega

/-- World with capacity 2 where vehicle 1 is already parked. -/
def c9w : World :=
  ((TryEnter (createV (initWorld 2) 1 0) 1 1).getD (initWorld 2, true, [])).1

/-- Witness for `c9_no_readmission_check`: re-admitting parked vehicle 1. -/
theorem c9_no_readmission_check_witness :
    ∃ w' : World,
      TryEnter c9w 1 2 =
        some (w', true, [⟨NotifKind.entered, 1, c9w.lot.capacity - (c9w.lot.occupiedSpaces + 1)⟩]) ∧
      w'.lot.occupiedSpaces = c9w.lot.occupiedSpaces + 1 ∧
      w'.lot.vehicles = c9w.lot.vehicles ∧
      w'.heap 1 =
        some (((((NewVehicle 1 0).SetState VehicleState.Entering 1).SetState VehicleState.Parked
                  1).SetState VehicleState.Entering 2).SetState VehicleState.Parked 2) ∧
      (w'.lot.vehicles.length : Int) < w'.lot.occupiedSpaces :=
  c9_no_readmission_check c9w 1 2 _ rfl (by decide) (by decide) (by decide) rfl (by decide)

/-- Iterating rejected `TryEnter` calls on a full lot: each call appends
one more id to the internal waiting queue, with no bound ever checked. -/
theorem tryEnter_reject_iterate {id now : Int} {v : Vehicle} (n : Nat) :
    ∀ {w : World}, w.heap id = some v → w.lot.capacity ≤ w.lot.occupiedSpaces →
    ∃ w' : World,
      runOps w (List.replicate n (Op.enter id now)) = some (w', []) ∧
      w'.lot.waitingQueue = w.lot.waitingQueue ++ List.replicate n id ∧
      w'.lot.occupiedSpaces = w.lot.occupiedSpaces ∧
      w'.lot.vehicles = w.lot.vehicles ∧
      w'.lot.capacity = w.lot.capacity ∧
      w'.heap = w.heap := by
  induction n with
  | zero =>
    intro w _ _
    exact ⟨w, rfl, by simp, rfl, rfl, rfl, rfl⟩
  | succ n ih =>
    intro w hv hfull
    have h1 := @tryEnter_full w id now v hv hfull
    obtain ⟨w', hrun, hq, ho, hveh, hcap, hheap⟩ :=
      @ih { w with lot := { w.lot with waitingQueue := w.lot.waitingQueue ++ [id] } } hv hfull
    refine ⟨w', ?_, ?_, ho, hveh, hcap, hheap⟩
    · rw [List.replicate_succ]
      simp only [runOps, step, h1, hrun]
      rfl
    · rw [hq]
      simp [List.replicate_succ]

/-- C10: whenever `TryEnter` returns `false` (full lot, or no space
permit), the rejected vehicle has been appended at the tail of the
pool's own internal waiting queue — every other pool field, the heap
and the trace are unchanged and no notification fires — and this
internal queue enforces no maximum size: `n` consecutive rejections on
a full lot grow it by exactly `n`, for every `n`. -/
theorem c10_reject_appends_unbounded :
    (∀ (w : World) (id now : Int) (w' : World) (ns : List Notif),
       TryEnter w id now = some (w', false, ns) →
       w'.lot.waitingQueue = w.lot.waitingQueue ++ [id] ∧
       w'.lot.occupiedSpaces = w.lot.occupiedSpaces ∧
       w'.lot.vehicles = w.lot.vehicles ∧
       w'.lot.spacePermits = w.lot.spacePermits ∧
       w'.lot.gateAvailable = w.lot.gateAvailable ∧
       w'.lot.capacity = w.lot.capacity ∧
       w'.heap = w.heap ∧ w'.trace = w.trace ∧ ns = []) ∧
    (∀ (w : World) (id now : Int) (v : Vehicle) (n : Nat),
       w.heap id = some v → w.lot.capacity ≤ w.lot.occupiedSpaces →
       ∃ w' : World,
         runOps w (List.replicate n (Op.enter id now)) = some (w', []) ∧
         w'.lot.waitingQueue.length = w.lot.waitingQueue.length + n) := by
  constructor
  · intro w id now w' ns h
    obtain ⟨v, hv, hcase | hcase⟩ := tryEnter_cases h
    · obtain ⟨-, hr⟩ := hcase
      injection hr with hw hrest
      injection hrest with hb hns
      subst hw
      subst hns
      exact ⟨rfl, rfl, rfl, rfl, rfl, rfl, rfl, rfl, rfl⟩
    · obtain ⟨-, -, -, hr⟩ := hcase
      have := congrArg (fun t => t.2.1) hr
      simp only at this
      cases this
  · intro w id now v n hv hfull
    obtain ⟨w', hrun, hq, -, -, -, -⟩ := tryEnter_reject_iterate n hv hfull
    refine ⟨w', hrun, ?_⟩
    rw [hq]
    simp

/-- Witness for `c10_reject_appends_unbounded`: one rejection on a full
capacity-0 lot, and five iterated rejections. -/
theorem c10_reject_appends_unbounded_witness :
    (∃ w' : World, TryEnter c3wFull 1 6 = some (w', false, []) ∧
       w'.lot.waitingQueue = c3wFull.lot.waitingQueue ++ [1] ∧
       w'.lot.occupiedSpaces = c3wFull.lot.occupiedSpaces) ∧
    (∃ w' : World,
       runOps c3wFull (List.replicate 5 (Op.enter 1 6)) = some (w', []) ∧
       w'.lot.waitingQueue.length = c3wFull.lot.waitingQueue.length + 5) := by
  constructor
  · have h : TryEnter c3wFull 1 6 =
        some ({ c3wFull with
                  lot := { c3wFull.lot with
                             waitingQueue := c3wFull.lot.waitingQueue ++ [1] } },
              false, []) := @tryEnter_full c3wFull 1 6 (NewVehicle 1 5) rfl (by decide)
    obtain ⟨hq, ho, -⟩ := c10_reject_appends_unbounded.1 c3wFull 1 6 _ [] h
    exact ⟨_, h, hq, ho⟩
  · exact c10_reject_appends_unbounded.2 c3wFull 1 6 (NewVehicle 1 5) 5 rfl (by decide)

/-- C4: `Exit` is idempotent and defensive.  (a) Calling `Exit` on a
vehicle whose id is not in the map leaves the entire world — occupancy,
map, waiting queue, heap — unchanged and invokes no notification.
(b) For a vehicle admitted once (id in the map, gate free, queue empty
so the call's own bookkeeping is isolated), the first `Exit` removes it,
decrements occupancy by exactly one and fires exactly one notification;
the second `Exit` on the same vehicle is a no-op with no notification:
two calls produce exactly one decrement and one notification. -/
theorem c4_exit_idempotent :
    (∀ (w : World) (id t : Int) (v : Vehicle),
       w.heap id = some v → id ∉ w.lot.vehicles →
       ExitStep w id t = some (w, [])) ∧
    (∀ (w : World) (id t1 t2 : Int) (v : Vehicle),
       w.heap id = some v → id ∈ w.lot.vehicles →
       w.lot.gateAvailable = true → w.lot.waitingQueue = [] →
       ∃ w1 : World,
         ExitStep w id t1 =
           some (w1, [⟨NotifKind.exited, id, w.lot.capacity - (w.lot.occupiedSpaces - 1)⟩]) ∧
         w1.lot.occupiedSpaces = w.lot.occupiedSpaces - 1 ∧
         id ∉ w1.lot.vehicles ∧
         ExitStep w1 id t2 = some (w1, [])) := by
  constructor
  · intro w id t v hv hmem
    exact exitStep_not_mem hv hmem
  · intro w id t1 t2 v hv hmem hgate hq
    have h1 : ExitStep w id t1 =
        some ({ lot := { w.lot with gateAvailable := true,
                                    vehicles := removeKey w.lot.vehicles id,
                                    occupiedSpaces := w.lot.occupiedSpaces - 1,
                                    spacePermits := w.lot.spacePermits + 1,
                                    waitingQueue := [] },
                heap := hset w.heap id (v.SetState VehicleState.Exiting t1),
                trace := w.trace ++ [(id, VehicleState.Exiting)] },
              [⟨NotifKind.exited, id, w.lot.capacity - (w.lot.occupiedSpaces - 1)⟩]) := by
      unfold ExitStep
      rw [exitCore_mem_nil hv hmem hgate hq]
    have hnot : id ∉ removeKey w.lot.vehicles id := by
      rw [mem_removeKey]
      rintro ⟨-, hne⟩
      exact hne rfl
    refine ⟨_, h1, rfl, hnot, ?_⟩
    exact exitStep_not_mem (hset_eq _ _ _) hnot

/-- World with capacity 1 and vehicle 1 parked. -/
def c4w : World :=
  ((TryEnter (createV (initWorld 1) 1 0) 1 1).getD (initWorld 1, true, [])).1

/-- Witness for `c4_exit_idempotent`: exiting parked vehicle 1 twice,
then exiting the never-admitted vehicle id 9 (allocated but waiting). -/
theorem c4_exit_idempotent_witness :
    (∃ w1 : World,
       ExitStep c4w 1 2 =
         some (w1, [⟨NotifKind.exited, 1, c4w.lot.capacity - (c4w.lot.occupiedSpaces - 1)⟩]) ∧
       w1.lot.occupiedSpaces = c4w.lot.occupiedSpaces - 1 ∧
       1 ∉ w1.lot.vehicles ∧
       ExitStep w1 1 3 = some (w1, [])) ∧
    ExitStep (createV c4w 9 4) 9 5 = some (createV c4w 9 4, []) :=
  ⟨c4_exit_idempotent.2 c4w 1 2 3 _ rfl (by decide) (by decide) (by decide),
   c4_exit_idempotent.1 (createV c4w 9 4) 9 5 (NewVehicle 9 4) rfl (by decide)⟩

/-! Concrete capacity-2 scenario (claim C5). -/

/-- Capacity-2 lot with vehicles 1, 2, 3 created. -/
def c5w0 : World := createV (createV (createV (initWorld 2) 1 0) 2 0) 3 0

/-- Admission attempt of vehicle 1. -/
def c5r1 : Option (World × Bool × List Notif) := TryEnter c5w0 1 10

/-- World after vehicle 1 entered. -/
def c5w1 : World := (c5r1.getD (c5w0, false, [])).1

/-- Admission attempt of vehicle 2. -/
def c5r2 : Option (World × Bool × List Notif) := TryEnter c5w1 2 11

/-- World after vehicle 2 entered. -/
def c5w2 : World := (c5r2.getD (c5w1, false, [])).1

/-- Admission attempt of vehicle 3. -/
def c5r3 : Option (World × Bool × List Notif) := TryEnter c5w2 3 12

/-- World after vehicle 3 was rejected and queued. -/
def c5w3 : World := (c5r3.getD (c5w2, false, [])).1

/-- The `Exit` bookkeeping of vehicle 1 alone (before the queue retry). -/
def c5rc : Option (World × List Notif × Option Int) := ExitCore c5w3 1 20

/-- The full `Exit` of vehicle 1, queue retry included. -/
def c5r4 : Option (World × List Notif) := ExitStep c5w3 1 20

/-- World after vehicle 1 exited and vehicle 3 was drained. -/
def c5w4 : World := (c5r4.getD (c5w3, [])).1

/-- C5: the capacity-2 scenario.  Vehicles 1 and 2 are admitted (both
`true`), leaving occupancy 2 and 0 available; vehicle 3 is rejected
(`false`) and queued, queue length 1; `Exit` of vehicle 1 brings
occupancy to 1, fires the departure notification with 1 available, pops
vehicle 3 from the queue head and retries `TryEnter` for it, after
which vehicle 3 is parked and occupancy is back to 2. -/
theorem c5_capacity_two_scenario :
    c5r1.map (fun r => (r.2.1, r.2.2)) = some (true, [⟨NotifKind.entered, 1, 1⟩]) ∧
    c5w1.lot.occupiedSpaces = 1 ∧
    c5r2.map (fun r => (r.2.1, r.2.2)) = some (true, [⟨NotifKind.entered, 2, 0⟩]) ∧
    c5w2.lot.occupiedSpaces = 2 ∧
    c5w2.lot.GetAvailableSpaces = 0 ∧
    c5r3.map (fun r => (r.2.1, r.2.2)) = some (false, []) ∧
    c5w3.lot.waitingQueue = [3] ∧
    c5w3.lot.waitingQueue.length = 1 ∧
    c5w3.lot.occupiedSpaces = 2 ∧
    c5rc.map (fun r => (r.1.lot.occupiedSpaces, r.2.2)) = some (1, some 3) ∧
    c5r4.map (fun r => r.2) =
      some [⟨NotifKind.exited, 1, 1⟩, ⟨NotifKind.entered, 3, 0⟩] ∧
    c5w4.lot.occupiedSpaces = 2 ∧
    c5w4.lot.waitingQueue = [] ∧
    (c5w4.heap 3).map Vehicle.state = some VehicleState.Parked ∧
    3 ∈ c5w4.lot.vehicles ∧
    1 ∉ c5w4.lot.vehicles := by
  decide

/-! Conservation (claim C2): the driver double-queues a rejected
vehicle — `TryEnter` has already appended it to the pool's internal
waiting queue when `processVehicle` appends it to the driver queue. -/

/-- Capacity-1 lot with vehicles 1, 2 created and vehicle 1 parked. -/
def c2w : World :=
  ((TryEnter (createV (createV (initWorld 1) 1 0) 2 0) 1 1).getD (initWorld 1, true, [])).1

/-- `processVehicle`'s admission phase for vehicle 2 on the full lot,
with an empty driver queue of maximum size 80. -/
def c2res : Option (World × List Int × Bool) := processVehicleAdmit c2w [] 80 2 5

/-- C2 counterexample: after `processVehicle` handles the rejected
vehicle 2, the id 2 sits in the pool's internal waiting queue AND in
the driver's queue simultaneously — held in two places and counted
twice, never balked, refuting "accounted for exactly once" and in
particular "queued exactly once". -/
theorem c2_conservation_cex :
    c2res.map (fun r => (r.1.lot.waitingQueue, r.2.1, r.2.2)) = some ([2], [2], false) ∧
    c2res.map (fun r => r.1.lot.waitingQueue.count 2 + r.2.1.count 2) = some 2 := by
  decide

/-- C2 amended: a vehicle whose `TryEnter` is rejected on a full lot is
queued twice — `TryEnter` itself appends it to the pool's internal
waiting queue, and `processVehicle` then also appends it to the
driver's bounded queue (unless that queue is full, in which case it
stays only in the pool queue); the map and occupancy are unchanged. -/
theorem c2_conservation_amended (w : World) (dq : List Int) (maxQ : Nat) (id now : Int)
    (v : Vehicle) (hv : w.heap id = some v)
    (hfull : w.lot.capacity ≤ w.lot.occupiedSpaces) :
    ∃ w' : World,
      processVehicleAdmit w dq maxQ id now = some (w', (addToQueue dq maxQ id).1, false) ∧
      w'.lot.waitingQueue = w.lot.waitingQueue ++ [id] ∧
      w'.lot.vehicles = w.lot.vehicles ∧
      w'.lot.occupiedSpaces = w.lot.occupiedSpaces ∧
      (addToQueue dq maxQ id).1 = (if maxQ ≤ dq.length then dq else dq ++ [id]) := by
  refine ⟨{ w with lot := { w.lot with waitingQueue := w.lot.waitingQueue ++ [id] } },
          ?_, rfl, rfl, rfl, ?_⟩
  · unfold processVehicleAdmit
    rw [@tryEnter_full w id now v hv hfull]
    rfl
  · unfold addToQueue
    split <;> rfl

/-- Witness for `c2_conservation_amended` at the `c2w` world. -/
theorem c2_conservation_amended_witness :
    ∃ w' : World,
      processVehicleAdmit c2w [] 80 2 5 = some (w', (addToQueue [] 80 2).1, false) ∧
      w'.lot.waitingQueue = c2w.lot.waitingQueue ++ [2] ∧
      w'.lot.vehicles = c2w.lot.vehicles ∧
      w'.lot.occupiedSpaces = c2w.lot.occupiedSpaces ∧
      (addToQueue [] 80 2).1 = (if 80 ≤ ([] : List Int).length then [] else [] ++ [2]) :=
  c2_conservation_amended c2w [] 80 2 5 (NewVehicle 2 0) rfl (by decide)

/-- C7: for every generator state with positive rate, `minTime ≤
maxTime` and a free mutex, `NextInterval` succeeds and returns a value
in the closed interval `[minTime, maxTime]` seconds, whatever the
underlying exponential draw was. -/
theorem c7_clamped_interval (pg : PoissonGenerator)
    (hl : 0 < pg.lambda) (hb : pg.minTime ≤ pg.maxTime) (hm : pg.locked = false) :
    ∃ (x : ℚ) (pg' : PoissonGenerator),
      NextInterval pg = some (x, pg') ∧ pg.minTime ≤ x ∧ x ≤ pg.maxTime := by
  refine ⟨clampInterval pg.minTime pg.maxTime (pg.raw pg.idx),
          { pg with idx := pg.idx + 1 }, ?_, le_max_left _ _,
          max_le hb (min_le_left _ _)⟩
  unfold NextInterval
  rw [hm]
  rfl

/-- Concrete generator: rate 2, bounds [0.1, 10], constant raw stream. -/
def c7pg : PoissonGenerator :=
  { lambda := 2, minTime := 1/10, maxTime := 10, raw := fun _ => 5, idx := 0, locked := false }

/-- Witness for `c7_clamped_interval` at `c7pg`. -/
theorem c7_clamped_interval_witness :
    ∃ (x : ℚ) (pg' : PoissonGenerator),
      NextInterval c7pg = some (x, pg') ∧ c7pg.minTime ≤ x ∧ x ≤ c7pg.maxTime :=
  c7_clamped_interval c7pg (by norm_num [c7pg]) (by norm_num [c7pg]) rfl

/-- C8 (the code deadlocks): `GenerateEventTimes` takes `pg.mu` and then
calls `pg.NextInterval()`, which tries to take the same non-reentrant
mutex; for every positive window the first loop iteration therefore
blocks forever — the call never returns, at any fuel bound. -/
theorem c8_generateEventTimes_deadlocks (pg : PoissonGenerator) (duration : ℚ) (fuel : Nat)
    (hm : pg.locked = false) (hd : 0 < duration) :
    GenerateEventTimes pg duration fuel = none := by
  have hnext : NextInterval { pg with locked := true } = none := rfl
  have hloop : ∀ acc, genLoop { pg with locked := true } duration 0 acc fuel = none := by
    intro acc
    cases fuel with
    | zero => rfl
    | succ n =>
      unfold genLoop
      rw [if_pos hd, hnext]
  unfold GenerateEventTimes
  rw [hm]
  simp only [Bool.false_eq_true, if_false, hloop]

/-- Witness for `c8_generateEventTimes_deadlocks`: the concrete
generator `c7pg`, a one-second window and a generous fuel bound. -/
theorem c8_generateEventTimes_deadlocks_witness :
    GenerateEventTimes c7pg 1 1000 = none :=
  c8_generateEventTimes_deadlocks c7pg 1 1000 rfl (by norm_num)

/-! State-machine monotonicity (claim C6). -/

/-- Operation list in which vehicle 1, already parked, is run through
`TryEnter` again.  The driver reaches exactly this call pattern: a
rejected vehicle sits in the pool's internal waiting queue AND in the
driver's queue (see `c2_conservation_cex`); the pool's `Exit` drain
admits it from the internal queue, and the driver's `processQueue` loop
later pops its duplicate and calls `TryEnter` on the parked vehicle. -/
def c6cexOps : List Op := [Op.create 1 0, Op.enter 1 1, Op.enter 1 2]

/-- World after running `c6cexOps` on a capacity-2 lot. -/
def c6cexW : World := ((runOps (initWorld 2) c6cexOps).getD (initWorld 2, [])).1

/-- C6 counterexample: running `TryEnter` on the already-parked vehicle
1 logs the `SetState` history `Waiting, Entering, Parked, Entering,
Parked` — the backward transition `Parked → Entering` occurs, so the
observed state sequence is not a prefix of
`Waiting, Entering, Parked, Exiting`. -/
theorem c6_state_machine_cex :
    (runOps (initWorld 2) c6cexOps).isSome = true ∧
    traceOf c6cexW 1 =
      [VehicleState.Waiting, VehicleState.Entering, VehicleState.Parked,
       VehicleState.Entering, VehicleState.Parked] ∧
    ¬ IsChainTrace (traceOf c6cexW 1) := by
  refine ⟨by decide, by decide, ?_⟩
  unfold IsChainTrace
  decide

/-- Ids of the `create` operations of a list, in order. -/
def createIds (ops : List Op) : List Int :=
  ops.filterMap (fun op => match op with
    | Op.create i _ => some i
    | _ => none)

/-- Ids of the `enter` operations of a list, in order. -/
def enterIds (ops : List Op) : List Int :=
  ops.filterMap (fun op => match op with
    | Op.enter i _ => some i
    | _ => none)

/-- Entry times of live vehicles are below every pending timestamp. -/
def TimeBound (w : World) (rem : List Op) : Prop :=
  ∀ id v, w.heap id = some v → ∀ e, v.entryTime = some e → ∀ op ∈ rem, e ≤ op.time

/-- Pending creations only concern unallocated ids. -/
def CreateFresh (w : World) (rem : List Op) : Prop :=
  ∀ id, id ∈ createIds rem → w.heap id = none

/-- Per-vehicle invariant of a run in which every vehicle is created
and passed to `TryEnter` at most once: each allocated vehicle is either
waiting (queued at most once, and only if its single `TryEnter` is
already spent), parked, or exited, with the matching `SetState`
history and timestamps. -/
def VehInv (w : World) (rem : List Op) (id : Int) : Prop :=
  match w.heap id with
  | none => id ∉ w.lot.vehicles ∧ id ∉ w.lot.waitingQueue ∧ traceOf w id = []
  | some v =>
    (∃ e, v.entryTime = some e) ∧
    ((v.state = VehicleState.Waiting ∧
        traceOf w id = [VehicleState.Waiting] ∧
        id ∉ w.lot.vehicles ∧
        w.lot.waitingQueue.count id ≤ 1 ∧
        (id ∈ w.lot.waitingQueue → id ∉ enterIds rem) ∧
        v.exitTime = none) ∨
     (v.state = VehicleState.Parked ∧
        traceOf w id =
          [VehicleState.Waiting, VehicleState.Entering, VehicleState.Parked] ∧
        id ∈ w.lot.vehicles ∧ id ∉ w.lot.waitingQueue ∧ id ∉ enterIds rem ∧
        v.exitTime = none) ∨
     (v.state = VehicleState.Exiting ∧
        traceOf w id = stateChain ∧
        id ∉ w.lot.vehicles ∧ id ∉ w.lot.waitingQueue ∧ id ∉ enterIds rem ∧
        ∃ e x, v.entryTime = some e ∧ v.exitTime = some x ∧ e ≤ x))

/-- Full invariant for single-admission runs. -/
def SimInv (w : World) (rem : List Op) : Prop :=
  PoolInv w ∧ TimeBound w rem ∧ CreateFresh w rem ∧
  (createIds rem).Nodup ∧ (enterIds rem).Nodup ∧
  List.Sorted (· ≤ ·) (rem.map Op.time) ∧
  ∀ id, VehInv w rem id

theorem createIds_cons_create (i t : Int) (rest : List Op) :
    createIds (Op.create i t :: rest) = i :: createIds rest := rfl

theorem createIds_cons_enter (i t : Int) (rest : List Op) :
    createIds (Op.enter i t :: rest) = createIds rest := rfl

theorem createIds_cons_leave (i t : Int) (rest : List Op) :
    createIds (Op.leave i t :: rest) = createIds rest := rfl

theorem enterIds_cons_create (i t : Int) (rest : List Op) :
    enterIds (Op.create i t :: rest) = enterIds rest := rfl

theorem enterIds_cons_enter (i t : Int) (rest : List Op) :
    enterIds (Op.enter i t :: rest) = i :: enterIds rest := rfl

theorem enterIds_cons_leave (i t : Int) (rest : List Op) :
    enterIds (Op.leave i t :: rest) = enterIds rest := rfl

/-- The transition log of one vehicle within a raw trace list. -/
theorem traceOf_eq (w : World) (id : Int) :
    traceOf w id = (w.trace.filter (fun e => e.1 = id)).map (fun e => e.2) := rfl

theorem trace_filter_append (t1 t2 : List (Int × VehicleState)) (id : Int) :
    ((t1 ++ t2).filter (fun e => e.1 = id)).map (fun e => e.2) =
      (t1.filter (fun e => e.1 = id)).map (fun e => e.2) ++
      (t2.filter (fun e => e.1 = id)).map (fun e => e.2) := by
  simp

theorem trace_filter_single_self (id : Int) (s : VehicleState) :
    (([(id, s)] : List (Int × VehicleState)).filter (fun e => e.1 = id)).map
      (fun e => e.2) = [s] := by
  simp

theorem trace_filter_single_ne {j id : Int} (hne : j ≠ id) (s : VehicleState) :
    (([(j, s)] : List (Int × VehicleState)).filter (fun e => e.1 = id)).map
      (fun e => e.2) = [] := by
  simp [hne]

/-- `VehInv` only looks at one heap entry, one trace, membership in the
key set, membership/multiplicity in the queue, and the pending enter
ids. -/
theorem VehInv_congr {w w' : World} {rem rem' : List Op} {j : Int}
    (hh : w'.heap j = w.heap j) (htr : traceOf w' j = traceOf w j)
    (hvm : j ∈ w'.lot.vehicles ↔ j ∈ w.lot.vehicles)
    (hqm : j ∈ w'.lot.waitingQueue ↔ j ∈ w.lot.waitingQueue)
    (hqc : w'.lot.waitingQueue.count j = w.lot.waitingQueue.count j)
    (he : ∀ x, x ∈ enterIds rem' → x ∈ enterIds rem) :
    VehInv w rem j → VehInv w' rem' j := by
  intro hi
  unfold VehInv at hi ⊢
  rw [hh, htr, hqc, hvm, hqm]
  cases hwj : w.heap j with
  | none =>
    rw [hwj] at hi
    exact hi
  | some v =>
    rw [hwj] at hi
    obtain ⟨hen, hbr⟩ := hi
    refine ⟨hen, ?_⟩
    rcases hbr with ⟨h1, h2, h3, h4, h5, h6⟩ | ⟨h1, h2, h3, h4, h5, h6⟩ |
      ⟨h1, h2, h3, h4, h5, h6⟩
    · exact Or.inl ⟨h1, h2, h3, h4, fun hq hx => h5 hq (he j hx), h6⟩
    · exact Or.inr (Or.inl ⟨h1, h2, h3, h4, fun hx => h5 (he j hx), h6⟩)
    · exact Or.inr (Or.inr ⟨h1, h2, h3, h4, fun hx => h5 (he j hx), h6⟩)

theorem simInv_create {w : World} {id t : Int} {rest : List Op}
    (hi : SimInv w (Op.create id t :: rest)) :
    SimInv (createV w id t) rest := by
  obtain ⟨hp, htb, hcf, hcn, hen, hts, hveh⟩ := hi
  have hfresh : w.heap id = none := by
    apply hcf id
    rw [createIds_cons_create]
    exact List.mem_cons_self _ _
  have hvid := hveh id
  rw [VehInv, hfresh] at hvid
  obtain ⟨hnv, hnq, htr⟩ := hvid
  rw [List.map_cons] at hts
  obtain ⟨thead, ttail⟩ := List.sorted_cons.mp hts
  refine ⟨hp, ?_, ?_, ?_, ?_, ?_, ?_⟩
  · -- TimeBound
    intro j v hj e he op hop
    by_cases hji : j = id
    · subst hji
      rw [show (createV w j t).heap j = some (NewVehicle j t) from hset_eq _ _ _] at hj
      injection hj with hj
      have he' : e = t := by
        rw [← hj] at he
        injection he with he
        exact he.symm
      subst he'
      exact thead _ (List.mem_map_of_mem _ hop)
    · rw [show (createV w id t).heap j = w.heap j from hset_ne _ _ hji] at hj
      exact htb j v hj e he op (List.mem_cons_of_mem _ hop)
  · -- CreateFresh
    intro j hj
    have hji : j ≠ id := by
      rintro rfl
      rw [createIds_cons_create] at hcn
      exact (List.nodup_cons.mp hcn).1 hj
    rw [show (createV w id t).heap j = w.heap j from hset_ne _ _ hji]
    apply hcf j
    rw [createIds_cons_create]
    exact List.mem_cons_of_mem _ hj
  · rw [createIds_cons_create] at hcn
    exact (List.nodup_cons.mp hcn).2
  · rw [enterIds_cons_create] at hen
    exact hen
  · exact ttail
  · -- per-vehicle
    intro j
    by_cases hji : j = id
    · subst hji
      rw [VehInv, show (createV w j t).heap j = some (NewVehicle j t) from hset_eq _ _ _]
      refine ⟨⟨t, rfl⟩, Or.inl ⟨rfl, ?_, hnv, ?_, ?_, rfl⟩⟩
      · rw [traceOf_eq]
        show ((w.trace ++ [(j, VehicleState.Waiting)]).filter _).map _ = _
        rw [trace_filter_append]
        rw [traceOf_eq] at htr
        rw [htr, trace_filter_single_self]
        rfl
      · show (w.lot.waitingQueue.count j) ≤ 1
        rw [List.count_eq_zero.mpr hnq]
        norm_num
      · intro hq
        exact absurd hq hnq
    · refine VehInv_congr (hset_ne _ _ hji) ?_ Iff.rfl Iff.rfl rfl
        (fun x hx => by rwa [enterIds_cons_create]) (hveh j)
      rw [traceOf_eq, traceOf_eq]
      show ((w.trace ++ [(id, VehicleState.Waiting)]).filter _).map _ = _
      rw [trace_filter_append, trace_filter_single_ne (fun h => hji h.symm)]
      rw [List.append_nil]

theorem setState_entering_of_some {v : Vehicle} {t e : Int} (he : v.entryTime = some e) :
    v.SetState VehicleState.Entering t = { v with state := VehicleState.Entering } := by
  unfold Vehicle.SetState
  rw [if_neg, if_neg]
  · intro h
    cases h
  · rintro ⟨-, h⟩
    rw [he] at h
    cases h

theorem setState_parked {v : Vehicle} {t : Int} :
    v.SetState VehicleState.Parked t = { v with state := VehicleState.Parked } := by
  unfold Vehicle.SetState
  rw [if_neg, if_neg]
  · intro h
    cases h
  · rintro ⟨h, -⟩
    cases h

theorem setState_exiting {v : Vehicle} {t : Int} :
    v.SetState VehicleState.Exiting t =
      { v with state := VehicleState.Exiting, exitTime := some t } := by
  unfold Vehicle.SetState
  rw [if_neg, if_pos rfl]
  rintro ⟨h, -⟩
  cases h

theorem trace_filter_pair_ne {id j : Int} (hne : id ≠ j) (s1 s2 : VehicleState) :
    (([(id, s1), (id, s2)] : List (Int × VehicleState)).filter
      (fun e => e.1 = j)).map (fun e => e.2) = [] := by
  simp [hne]

theorem trace_filter_pair_self (id : Int) (s1 s2 : VehicleState) :
    (([(id, s1), (id, s2)] : List (Int × VehicleState)).filter
      (fun e => e.1 = id)).map (fun e => e.2) = [s1, s2] := by
  simp

/-- A vehicle whose single `TryEnter` is pending is freshly created:
waiting, unqueued, not in the map. -/
theorem vehInv_entered_spent {w : World} {rem : List Op} {id : Int} {v : Vehicle}
    (hv : w.heap id = some v) (hvi : VehInv w rem id) (hidin : id ∈ enterIds rem) :
    (∃ e, v.entryTime = some e) ∧ v.state = VehicleState.Waiting ∧
    traceOf w id = [VehicleState.Waiting] ∧ id ∉ w.lot.vehicles ∧
    id ∉ w.lot.waitingQueue ∧ v.exitTime = none := by
  rw [VehInv, hv] at hvi
  obtain ⟨hen, hbr⟩ := hvi
  rcases hbr with ⟨h1, h2, h3, h4, h5, h6⟩ | ⟨-, -, -, -, hne, -⟩ | ⟨-, -, -, -, hne, -⟩
  · exact ⟨hen, h1, h2, h3, fun hq => (h5 hq) hidin, h6⟩
  · exact absurd hidin hne
  · exact absurd hidin hne

/-- A queued id denotes an allocated, waiting, unadmitted vehicle whose
single `TryEnter` is already spent. -/
theorem vehInv_queued {w : World} {rem : List Op} {q0 : Int}
    (hq : q0 ∈ w.lot.waitingQueue) (hvi : VehInv w rem q0) :
    ∃ v, w.heap q0 = some v ∧ (∃ e, v.entryTime = some e) ∧
      v.state = VehicleState.Waiting ∧ traceOf w q0 = [VehicleState.Waiting] ∧
      q0 ∉ w.lot.vehicles ∧ w.lot.waitingQueue.count q0 ≤ 1 ∧
      q0 ∉ enterIds rem ∧ v.exitTime = none := by
  cases hh : w.heap q0 with
  | none =>
    rw [VehInv, hh] at hvi
    exact absurd hq hvi.2.1
  | some v =>
    rw [VehInv, hh] at hvi
    obtain ⟨hen, hbr⟩ := hvi
    rcases hbr with ⟨h1, h2, h3, h4, h5, h6⟩ | ⟨-, -, -, hnq, -, -⟩ | ⟨-, -, -, hnq, -, -⟩
    · exact ⟨v, rfl, hen, h1, h2, h3, h4, h5 hq, h6⟩
    · exact absurd hq hnq
    · exact absurd hq hnq

theorem simInv_enter {w : World} {id t : Int} {rest : List Op} {w1 : World} {b : Bool}
    {ns : List Notif} (hi : SimInv w (Op.enter id t :: rest))
    (h : TryEnter w id t = some (w1, b, ns)) :
    SimInv w1 rest := by
  obtain ⟨hp, htb, hcf, hcn, hen, hts, hveh⟩ := hi
  have hidin : id ∈ enterIds (Op.enter id t :: rest) := by
    rw [enterIds_cons_enter]
    exact List.mem_cons_self _ _
  rw [enterIds_cons_enter] at hen
  have hnotrest : id ∉ enterIds rest := (List.nodup_cons.mp hen).1
  have hesub : ∀ x, x ∈ enterIds rest → x ∈ enterIds (Op.enter id t :: rest) := by
    intro x hx
    rw [enterIds_cons_enter]
    exact List.mem_cons_of_mem _ hx
  rw [List.map_cons] at hts
  obtain ⟨-, ttail⟩ := List.sorted_cons.mp hts
  obtain ⟨v, hv, hcase | hcase⟩ := tryEnter_cases h
  · -- rejected: appended to the internal waiting queue
    obtain ⟨he0, hst, htr, hnv, hnq, hexit⟩ := vehInv_entered_spent hv (hveh id) hidin
    obtain ⟨-, hr⟩ := hcase
    injection hr with hw hrest
    injection hrest with hb hns
    subst hw
    subst hns
    refine ⟨hp, ?_, ?_, hcn, (List.nodup_cons.mp hen).2, ttail, ?_⟩
    · exact fun j v' hj e he' op hop => htb j v' hj e he' op (List.mem_cons_of_mem _ hop)
    · exact fun j hj => hcf j hj
    · intro j
      by_cases hji : j = id
      · subst hji
        rw [VehInv]
        show match w.heap j with
          | none => _ | some v => _
        rw [hv]
        refine ⟨he0, Or.inl ⟨hst, htr, hnv, ?_, ?_, hexit⟩⟩
        · show (w.lot.waitingQueue ++ [j]).count j ≤ 1
          rw [List.count_append, List.count_eq_zero.mpr hnq]
          simp
        · intro _
          exact hnotrest
      · refine @VehInv_congr w _ (Op.enter id t :: rest) rest j rfl rfl Iff.rfl ?_ ?_
          hesub (hveh j)
        · show j ∈ w.lot.waitingQueue ++ [id] ↔ j ∈ w.lot.waitingQueue
          rw [List.mem_append, List.mem_singleton]
          exact or_iff_left hji
        · show (w.lot.waitingQueue ++ [id]).count j = w.lot.waitingQueue.count j
          rw [List.count_append]
          simp [List.count_singleton', hji]
  · -- admitted: Waiting → Entering → Parked
    obtain ⟨he0, hst, htr, hnv, hnq, hexit⟩ := vehInv_entered_spent hv (hveh id) hidin
    obtain ⟨hlt, hperm, hgate, hr⟩ := hcase
    injection hr with hw hrest
    injection hrest with hb hns
    subst hw
    subst hns
    obtain ⟨e0, he0'⟩ := he0
    have hv2 : (v.SetState VehicleState.Entering t).SetState VehicleState.Parked t =
        { v with state := VehicleState.Parked } := by
      rw [setState_entering_of_some he0', setState_parked]
    refine ⟨(tryEnter_poolInv hp h).1, ?_, ?_, hcn, (List.nodup_cons.mp hen).2, ttail, ?_⟩
    · -- TimeBound
      intro j v' hj e he' op hop
      dsimp only at hj
      by_cases hji : j = id
      · rw [hji] at hj
        rw [hset_eq, hv2] at hj
        injection hj with hj
        rw [← hj] at he'
        have he2 : ({ v with state := VehicleState.Parked } : Vehicle).entryTime =
            v.entryTime := rfl
        rw [he2, he0'] at he'
        injection he' with he'
        rw [← he']
        exact htb id v hv e0 he0' op (List.mem_cons_of_mem _ hop)
      · rw [hset_ne _ _ hji] at hj
        exact htb j v' hj e he' op (List.mem_cons_of_mem _ hop)
    · -- CreateFresh
      intro j hj
      have hji : j ≠ id := by
        rintro rfl
        rw [hcf j hj] at hv
        cases hv
      dsimp only
      rw [hset_ne _ _ hji]
      exact hcf j hj
    · -- per-vehicle
      intro j
      by_cases hji : j = id
      · subst hji
        rw [VehInv]
        show match (hset w.heap j ((v.SetState VehicleState.Entering t).SetState
            VehicleState.Parked t)) j with
          | none => _ | some v => _
        rw [hset_eq, hv2]
        refine ⟨⟨e0, he0'⟩, Or.inr (Or.inl ⟨rfl, ?_, ?_, hnq, hnotrest, hexit⟩)⟩
        · rw [traceOf_eq]
          show ((w.trace ++ [(j, VehicleState.Entering), (j, VehicleState.Parked)]).filter
            _).map _ = _
          rw [trace_filter_append, trace_filter_pair_self]
          rw [traceOf_eq] at htr
          rw [htr]
          rfl
        · exact mem_addKey.mpr (Or.inr rfl)
      · refine @VehInv_congr w _ (Op.enter id t :: rest) rest j (hset_ne _ _ hji) ?_ ?_
          Iff.rfl rfl hesub (hveh j)
        · rw [traceOf_eq, traceOf_eq]
          show ((w.trace ++ [(id, VehicleState.Entering), (id, VehicleState.Parked)]).filter
            _).map _ = _
          rw [trace_filter_append, trace_filter_pair_ne (fun hh => hji hh.symm)]
          rw [List.append_nil]
        · show j ∈ addKey w.lot.vehicles id ↔ j ∈ w.lot.vehicles
          rw [mem_addKey]
          exact or_iff_left hji

theorem simInv_leave {w : World} {id t : Int} {rest : List Op} {w1 : World}
    {ns : List Notif} (hi : SimInv w (Op.leave id t :: rest))
    (h : ExitStep w id t = some (w1, ns)) :
    SimInv w1 rest := by
  obtain ⟨hp, htb, hcf, hcn, hen, hts, hveh⟩ := hi
  rw [List.map_cons] at hts
  obtain ⟨-, ttail⟩ := List.sorted_cons.mp hts
  have hesub : ∀ x, x ∈ enterIds rest → x ∈ enterIds (Op.leave id t :: rest) := by
    intro x hx
    rw [enterIds_cons_leave]
    exact hx
  unfold ExitStep at h
  cases hc : ExitCore w id t with
  | none => rw [hc] at h; cases h
  | some rc =>
    rw [hc] at h
    obtain ⟨wE, nsE, popped⟩ := rc
    obtain ⟨v, hv, hcaseE | hcaseE⟩ := exitCore_cases hc
    · -- defensive no-op
      obtain ⟨hnm, hr⟩ := hcaseE
      injection hr with hwE hrest1
      injection hrest1 with hnsE hpop
      subst hpop
      simp only at h
      injection h with h
      have hw1 : w1 = wE := congrArg Prod.fst h.symm
      rw [hw1, hwE]
      refine ⟨hp, ?_, ?_, hcn, hen, ttail, ?_⟩
      · exact fun j v' hj e he' op hop => htb j v' hj e he' op (List.mem_cons_of_mem _ hop)
      · exact fun j hj => hcf j hj
      · exact fun j => VehInv_congr rfl rfl Iff.rfl Iff.rfl rfl hesub (hveh j)
    · -- real departure
      obtain ⟨hmem, hgate, hbr⟩ := hcaseE
      -- the departing vehicle must be parked
      have hvid := hveh id
      rw [VehInv, hv] at hvid
      obtain ⟨hen0, hbr0⟩ := hvid
      rcases hbr0 with ⟨-, -, hnm, -, -, -⟩ | ⟨hstP, htrP, -, hnqP, hnersP, hexitP⟩ |
        ⟨-, -, hnm, -, -, -⟩
      · exact absurd hmem hnm
      swap
      · exact absurd hmem hnm
      obtain ⟨e0, he0⟩ := hen0
      have hbound : e0 ≤ t := by
        have := htb id v hv e0 he0 (Op.leave id t) (List.mem_cons_self _ _)
        exact this
      have hv1 : v.SetState VehicleState.Exiting t =
          { v with state := VehicleState.Exiting, exitTime := some t } := setState_exiting
      rcases hbr with ⟨hqnil, hr⟩ | ⟨q0, qs, hq, hr⟩
      · -- empty waiting queue: no retry
        injection hr with hwE hrest1
        injection hrest1 with hnsE hpop
        subst hwE
        subst hpop
        simp only at h
        injection h with h
        have hw1 : w1 = _ := congrArg Prod.fst h.symm
        subst hw1
        refine ⟨?_, ?_, ?_, hcn, hen, ttail, ?_⟩
        · have := (exitCore_poolInv hp hc).1
          exact this
        · -- TimeBound
          intro j v' hj e he' op hop
          dsimp only at hj
          by_cases hji : j = id
          · rw [hji] at hj
            rw [hset_eq, hv1] at hj
            injection hj with hj
            rw [← hj] at he'
            have he2 : ({ v with state := VehicleState.Exiting, exitTime := some t } :
                Vehicle).entryTime = v.entryTime := rfl
            rw [he2, he0] at he'
            injection he' with he'
            rw [← he']
            exact htb id v hv e0 he0 op (List.mem_cons_of_mem _ hop)
          · rw [hset_ne _ _ hji] at hj
            exact htb j v' hj e he' op (List.mem_cons_of_mem _ hop)
        · -- CreateFresh
          intro j hj
          have hji : j ≠ id := by
            rintro rfl
            rw [hcf j hj] at hv
            cases hv
          dsimp only
          rw [hset_ne _ _ hji]
          exact hcf j hj
        · -- per-vehicle
          intro j
          by_cases hji : j = id
          · subst hji
            rw [VehInv]
            show match (hset w.heap j (v.SetState VehicleState.Exiting t)) j with
              | none => _ | some v => _
            rw [hset_eq, hv1]
            refine ⟨⟨e0, he0⟩, Or.inr (Or.inr ⟨rfl, ?_, ?_, ?_, hnersP, e0, t, he0, rfl,
              hbound⟩)⟩
            · rw [traceOf_eq]
              show ((w.trace ++ [(j, VehicleState.Exiting)]).filter _).map _ = _
              rw [trace_filter_append, trace_filter_single_self]
              rw [traceOf_eq] at htrP
              rw [htrP]
              rfl
            · show j ∉ removeKey w.lot.vehicles j
              rw [mem_removeKey]
              rintro ⟨-, hne⟩
              exact hne rfl
            · show j ∉ ([] : List Int)
              exact List.not_mem_nil j
          · refine @VehInv_congr w _ (Op.leave id t :: rest) rest j (hset_ne _ _ hji) ?_ ?_
              ?_ ?_ hesub (hveh j)
            · rw [traceOf_eq, traceOf_eq]
              show ((w.trace ++ [(id, VehicleState.Exiting)]).filter _).map _ = _
              rw [trace_filter_append, trace_filter_single_ne (fun hh => hji hh.symm)]
              rw [List.append_nil]
            · show j ∈ removeKey w.lot.vehicles id ↔ j ∈ w.lot.vehicles
              rw [mem_removeKey]
              exact and_iff_left hji
            · show j ∈ ([] : List Int) ↔ j ∈ w.lot.waitingQueue
              rw [hqnil]
            · show (([] : List Int)).count j = w.lot.waitingQueue.count j
              rw [hqnil]
      · -- non-empty waiting queue: pop the head and retry `TryEnter`
        injection hr with hwE hrest1
        injection hrest1 with hnsE hpop
        subst hwE
        subst hpop
        simp only at h
        -- facts about the popped head
        have hq0mem : q0 ∈ w.lot.waitingQueue := by
          rw [hq]
          exact List.mem_cons_self _ _
        obtain ⟨vq, hvq, ⟨eq0, heq0⟩, hstq, htrq, hnvq, hcountq, hnenq, hexq⟩ :=
          vehInv_queued hq0mem (hveh q0)
        have hqid : q0 ≠ id := by
          rintro rfl
          exact hnqP hq0mem
        have hq0notqs : q0 ∉ qs := by
          rw [hq, List.count_cons_self] at hcountq
          have : qs.count q0 = 0 := by omega
          exact List.count_eq_zero.mp this
        have hps := hp.2.1
        have hpo := hp.2.2.2.2
        -- the retried TryEnter succeeds
        have hTE := @tryEnter_success
          ({ lot := { w.lot with gateAvailable := true,
                                 vehicles := removeKey w.lot.vehicles id,
                                 occupiedSpaces := w.lot.occupiedSpaces - 1,
                                 spacePermits := w.lot.spacePermits + 1,
                                 waitingQueue := qs },
             heap := hset w.heap id (v.SetState VehicleState.Exiting t),
             trace := w.trace ++ [(id, VehicleState.Exiting)] }) q0 t vq
          (by dsimp only; rw [hset_ne _ _ hqid]; exact hvq)
          (by dsimp only; omega)
          (by dsimp only; omega)
          rfl
        rw [hTE] at h
        injection h with h
        have hw1 : w1 = _ := congrArg Prod.fst h.symm
        subst hw1
        dsimp only
        have hvq2 : (vq.SetState VehicleState.Entering t).SetState VehicleState.Parked t =
            { vq with state := VehicleState.Parked } := by
          rw [setState_entering_of_some heq0, setState_parked]
        refine ⟨?_, ?_, ?_, hcn, hen, ttail, ?_⟩
        · have h1 := (exitCore_poolInv hp hc).1
          dsimp only at h1
          have h2 := (tryEnter_poolInv h1 hTE).1
          exact h2
        · -- TimeBound
          intro j v' hj e he' op hop
          dsimp only at hj
          by_cases hjq : j = q0
          · rw [hjq] at hj
            rw [hset_eq, hvq2] at hj
            injection hj with hj
            rw [← hj] at he'
            have he2 : ({ vq with state := VehicleState.Parked } : Vehicle).entryTime =
                vq.entryTime := rfl
            rw [he2, heq0] at he'
            injection he' with he'
            rw [← he']
            exact htb q0 vq hvq eq0 heq0 op (List.mem_cons_of_mem _ hop)
          · rw [hset_ne _ _ hjq] at hj
            by_cases hji : j = id
            · rw [hji] at hj
              rw [hset_eq, hv1] at hj
              injection hj with hj
              rw [← hj] at he'
              have he2 : ({ v with state := VehicleState.Exiting, exitTime := some t } :
                  Vehicle).entryTime = v.entryTime := rfl
              rw [he2, he0] at he'
              injection he' with he'
              rw [← he']
              exact htb id v hv e0 he0 op (List.mem_cons_of_mem _ hop)
            · rw [hset_ne _ _ hji] at hj
              exact htb j v' hj e he' op (List.mem_cons_of_mem _ hop)
        · -- CreateFresh
          intro j hj
          have hji : j ≠ id := by
            rintro rfl
            rw [hcf j hj] at hv
            cases hv
          have hjq : j ≠ q0 := by
            rintro rfl
            rw [hcf j hj] at hvq
            cases hvq
          dsimp only
          rw [hset_ne _ _ hjq, hset_ne _ _ hji]
          exact hcf j hj
        · -- per-vehicle
          intro j
          by_cases hjq : j = q0
          · subst hjq
            rw [VehInv]
            show match (hset (hset w.heap id (v.SetState VehicleState.Exiting t)) j
                ((vq.SetState VehicleState.Entering t).SetState VehicleState.Parked t)) j with
              | none => _ | some v => _
            rw [hset_eq, hvq2]
            refine ⟨⟨eq0, heq0⟩, Or.inr (Or.inl ⟨rfl, ?_, ?_, hq0notqs, ?_, hexq⟩)⟩
            · rw [traceOf_eq]
              show (((w.trace ++ [(id, VehicleState.Exiting)]) ++
                [(j, VehicleState.Entering), (j, VehicleState.Parked)]).filter _).map _ = _
              rw [trace_filter_append, trace_filter_append]
              rw [trace_filter_single_ne (fun hh => hqid hh.symm), trace_filter_pair_self]
              rw [traceOf_eq] at htrq
              rw [htrq]
              rfl
            · exact mem_addKey.mpr (Or.inr rfl)
            · rw [enterIds_cons_leave] at hnenq
              exact hnenq
          · by_cases hji : j = id
            · subst hji
              rw [VehInv]
              show match (hset (hset w.heap j (v.SetState VehicleState.Exiting t)) q0
                  ((vq.SetState VehicleState.Entering t).SetState VehicleState.Parked t)) j with
                | none => _ | some v => _
              rw [hset_ne _ _ (fun hh => hjq hh), hset_eq, hv1]
              refine ⟨⟨e0, he0⟩, Or.inr (Or.inr ⟨rfl, ?_, ?_, ?_, hnersP, e0, t, he0, rfl,
                hbound⟩)⟩
              · rw [traceOf_eq]
                show (((w.trace ++ [(j, VehicleState.Exiting)]) ++
                  [(q0, VehicleState.Entering), (q0, VehicleState.Parked)]).filter _).map _ = _
                rw [trace_filter_append, trace_filter_append]
                rw [trace_filter_single_self, trace_filter_pair_ne hqid]
                rw [traceOf_eq] at htrP
                rw [htrP]
                rfl
              · show j ∉ addKey (removeKey w.lot.vehicles j) q0
                rw [mem_addKey, mem_removeKey]
                rintro (⟨-, hne⟩ | hne)
                · exact hne rfl
                · exact hqid hne.symm
              · show j ∉ qs
                intro hjqs
                apply hnqP
                rw [hq]
                exact List.mem_cons_of_mem _ hjqs
            · refine @VehInv_congr w _ (Op.leave id t :: rest) rest j ?_ ?_ ?_ ?_ ?_
                hesub (hveh j)
              · show (hset (hset w.heap id (v.SetState VehicleState.Exiting t)) q0
                  ((vq.SetState VehicleState.Entering t).SetState VehicleState.Parked t)) j =
                  w.heap j
                rw [hset_ne _ _ hjq, hset_ne _ _ hji]
              · rw [traceOf_eq, traceOf_eq]
                show (((w.trace ++ [(id, VehicleState.Exiting)]) ++
                  [(q0, VehicleState.Entering), (q0, VehicleState.Parked)]).filter _).map _ = _
                rw [trace_filter_append, trace_filter_append]
                rw [trace_filter_single_ne (fun hh => hji hh.symm)]
                rw [trace_filter_pair_ne (fun hh => hjq hh.symm)]
                rw [List.append_nil, List.append_nil]
              · show j ∈ addKey (removeKey w.lot.vehicles id) q0 ↔ j ∈ w.lot.vehicles
                rw [mem_addKey, mem_removeKey]
                constructor
                · rintro (⟨hm, -⟩ | hne)
                  · exact hm
                  · exact absurd hne hjq
                · intro hm
                  exact Or.inl ⟨hm, hji⟩
              · show j ∈ qs ↔ j ∈ w.lot.waitingQueue
                rw [hq, List.mem_cons]
                exact (or_iff_right hjq).symm
              · show qs.count j = w.lot.waitingQueue.count j
                rw [hq, List.count_cons_of_ne (fun hh => hjq hh)]

theorem simInv_step {w : World} {op : Op} {rest : List Op} {r : World × List Notif}
    (hi : SimInv w (op :: rest)) (h : step w op = some r) :
    SimInv r.1 rest := by
  cases op with
  | create id t =>
    simp only [step] at h
    injection h with h
    rw [← h]
    exact simInv_create hi
  | enter id t =>
    simp only [step] at h
    cases ht : TryEnter w id t with
    | none => rw [ht] at h; cases h
    | some rt =>
      rw [ht] at h
      obtain ⟨w', b, ns⟩ := rt
      simp only at h
      injection h with h
      rw [← h]
      exact simInv_enter hi ht
  | leave id t =>
    simp only [step] at h
    obtain ⟨w', ns⟩ := r
    exact simInv_leave hi h

theorem simInv_run {ops : List Op} :
    ∀ {w w' : World} {ns : List Notif},
      SimInv w ops → runOps w ops = some (w', ns) → SimInv w' [] := by
  induction ops with
  | nil =>
    intro w w' ns hi h
    simp only [runOps] at h
    injection h with h
    rw [show w' = w from congrArg Prod.fst h.symm]
    exact hi
  | cons op rest ih =>
    intro w w' ns hi h
    simp only [runOps] at h
    cases hs : step w op with
    | none => rw [hs] at h; cases h
    | some r1 =>
      rw [hs] at h
      obtain ⟨w1, ns1⟩ := r1
      simp only at h
      cases hr : runOps w1 rest with
      | none => rw [hr] at h; cases h
      | some r2 =>
        rw [hr] at h
        obtain ⟨w2, ns2⟩ := r2
        simp only at h
        injection h with h
        have hw : w' = w2 := congrArg Prod.fst h.symm
        subst hw
        have h1 := simInv_step hi hs
        dsimp only at h1
        exact ih h1 hr

/-- C6 amended: the claim fails when `TryEnter` is reached twice for the
same vehicle (see `c6_state_machine_cex`, reachable through the
driver's double-queueing), so it is restricted to runs in which each
vehicle is created once and submitted to `TryEnter` at most once (by
the driver or by the pool's own queue drain), with nondecreasing
timestamps.  Then every vehicle's observed `SetState` history is a
(possibly truncated) prefix of `Waiting, Entering, Parked, Exiting` —
no backward or skipping transition occurs — and its exit time, once
set, is at least its entry time. -/
theorem c6_state_machine_amended (C : Int) (hC : 0 ≤ C) (ops : List Op)
    (hcre : (createIds ops).Nodup) (hent : (enterIds ops).Nodup)
    (htime : List.Sorted (· ≤ ·) (ops.map Op.time))
    (w : World) (ns : List Notif)
    (h : runOps (initWorld C) ops = some (w, ns)) :
    (∀ id, IsChainTrace (traceOf w id)) ∧
    (∀ id v e x, w.heap id = some v → v.entryTime = some e → v.exitTime = some x →
      e ≤ x) := by
  have hinit : SimInv (initWorld C) ops := by
    refine ⟨initWorld_poolInv hC, ?_, ?_, hcre, hent, htime, ?_⟩
    · intro id v hid e he op hop
      simp [initWorld] at hid
    · intro id hid
      rfl
    · intro id
      exact ⟨List.not_mem_nil id, List.not_mem_nil id, rfl⟩
  have hfin := simInv_run hinit h
  obtain ⟨-, -, -, -, -, -, hveh⟩ := hfin
  constructor
  · intro id
    have hv := hveh id
    rw [VehInv] at hv
    cases hh : w.heap id with
    | none =>
      rw [hh] at hv
      rw [hv.2.2]
      unfold IsChainTrace
      decide
    | some v =>
      rw [hh] at hv
      obtain ⟨-, hbr⟩ := hv
      rcases hbr with ⟨-, htr, -⟩ | ⟨-, htr, -⟩ | ⟨-, htr, -⟩ <;>
        (rw [htr]; unfold IsChainTrace; decide)
  · intro id v e x hv he hx
    have hvi := hveh id
    rw [VehInv, hv] at hvi
    obtain ⟨-, hbr⟩ := hvi
    rcases hbr with ⟨-, -, -, -, -, hex⟩ | ⟨-, -, -, -, -, hex⟩ |
      ⟨-, -, -, -, -, e', x', he', hx', hle⟩
    · rw [hex] at hx
      cases hx
    · rw [hex] at hx
      cases hx
    · rw [he] at he'
      injection he' with he'
      rw [hx] at hx'
      injection hx' with hx'
      rw [← he', ← hx'] at hle
      exact hle

/-- Concrete single-admission run: capacity 2, three vehicles, one
rejected and drained by the departure of vehicle 1. -/
def c6wops : List Op :=
  [Op.create 1 0, Op.create 2 1, Op.create 3 2,
   Op.enter 1 3, Op.enter 2 4, Op.enter 3 5, Op.leave 1 6]

/-- Result of running `c6wops` on a capacity-2 lot. -/
def c6wres : World × List Notif := (runOps (initWorld 2) c6wops).getD (initWorld 2, [])

/-- Witness for `c6_state_machine_amended` on `c6wops`. -/
theorem c6_state_machine_amended_witness :
    (∀ id, IsChainTrace (traceOf c6wres.1 id)) ∧
    (∀ id v e x, c6wres.1.heap id = some v → v.entryTime = some e →
      v.exitTime = some x → e ≤ x) :=
  c6_state_machine_amended 2 (by norm_num) c6wops (by decide) (by decide) (by decide)
    c6wres.1 c6wres.2 rfl
